import Mathlib

/-!
# Verification of the quiz-buzzer server core

Shallow embedding of the session-state engine in `src/backend/server.ts`
(the compiled backend that the Dockerfile deploys; `src/server.js` is the
same logic inlined into the Next.js custom server).

Modelling conventions:
* JavaScript `Map` objects (`rooms`, `players`) become insertion-ordered
  association lists with `mapGet` / `mapSet` / `mapDelete` mirroring
  `Map.get` / `Map.set` / `Map.delete` (set keeps the position of an
  existing key and appends a fresh one, as JS `Map` does).
* The `players` directory stores a value copy of the `Player` record next
  to the room code.  In JS the directory holds a reference to the very
  object stored in `room.players`; the only field ever mutated after
  construction is `socketId` (on reconnect), and the directory copy's
  `socketId` is never read, so the value copy is observationally faithful.
* `Math.random()` results are modelled as dyadic rationals `m / 2^53`
  (the exact shape of V8's generator output); `Number.prototype.toString(36)`
  on such a value has a terminating base-36 expansion (2 divides 36, so at
  most 27 fractional digits), which the embedding computes exactly.
* Timestamps (`Date.now()`, `new Date()`) are naturals supplied as inputs.
* `socket.emit("error", msg)` is returned as an `Option String` by the
  handlers whose error behaviour the spec talks about.
-/

/-- `BuzzerEvent` record (`src/backend/server.ts` lines 53-58). -/
structure BuzzerEvent where
  playerId : String
  playerName : String
  team : Nat
  timestamp : Nat
deriving Repr, DecidableEq

/-- `Player` class (`src/backend/server.ts` lines 31-51). -/
structure Player where
  id : String
  name : String
  team : Nat
  isHost : Bool
  socketId : String
deriving Repr, DecidableEq

/-- `Room` class (`src/backend/server.ts` lines 9-29). `createdAt` is the
construction-time clock value. -/
structure Room where
  code : String
  teamCount : Nat
  hostName : String
  players : List Player
  buzzerPressed : Bool
  firstBuzzer : Option BuzzerEvent
  buzzerOrder : List BuzzerEvent
  createdAt : Nat
deriving Repr, DecidableEq

/-- The `Room` constructor: fresh room with empty roster and open buzzer. -/
def Room.create (code : String) (teamCount : Nat) (hostName : String)
    (now : Nat) : Room :=
  { code := code, teamCount := teamCount, hostName := hostName,
    players := [], buzzerPressed := false, firstBuzzer := none,
    buzzerOrder := [], createdAt := now }

/-- The two process-wide JS `Map`s (`rooms`, `players`). A `players` entry
maps a socket id to the player record bound to it and the room code. -/
structure ServerState where
  rooms : List (String × Room)
  players : List (String × (Player × String))
deriving Repr, DecidableEq

/-- The empty state at process start. -/
def initState : ServerState := ⟨[], []⟩

/-- JS `Map.get`: the value stored under `k` (keys are unique in a JS map,
so first match is the match). -/
def mapGet {α : Type} : List (String × α) → String → Option α
  | [], _ => none
  | e :: m, k => if e.1 = k then some e.2 else mapGet m k

/-- JS `Map.has`. -/
def mapHas {α : Type} : List (String × α) → String → Bool
  | [], _ => false
  | e :: m, k => decide (e.1 = k) || mapHas m k

/-- JS `Map.set`: overwrite in place when the key exists, append otherwise. -/
def mapSet {α : Type} : List (String × α) → String → α → List (String × α)
  | [], k, v => [(k, v)]
  | e :: m, k, v => if e.1 = k then (k, v) :: m else e :: mapSet m k v

/-- JS `Map.delete`: remove the entry stored under `k`, if any. -/
def mapDelete {α : Type} : List (String × α) → String → List (String × α)
  | [], _ => []
  | e :: m, k => if e.1 = k then m else e :: mapDelete m k

/-- Replace the first list element satisfying `p` (the JS pattern of calling
`find` and then mutating the returned object in place). -/
def updateFirst {α : Type} (p : α → Bool) (f : α → α) : List α → List α
  | [] => []
  | a :: as => if p a then f a :: as else a :: updateFirst p f as

/-- Remove the first list element satisfying `p`. -/
def removeFirst {α : Type} (p : α → Bool) : List α → List α
  | [] => []
  | a :: as => if p a then as else a :: removeFirst p as

/-! ## Room-code generation

`generateRoomCode()` is `Math.random().toString(36).substring(2, 8).toUpperCase()`
(`src/backend/server.ts` lines 61-63).  A `Math.random()` result is a double
of the form `m / 2^53` with `m < 2^53`; its base-36 expansion terminates
(in at most 27 digits, since `4 ∣ 36`), and `toString(36)` prints `"0"` for
zero and `"0." ++ digits` otherwise. -/

/-- The base-36 digit characters `0-9a-z` used by `Number.toString(36)`. -/
def base36Char (d : Nat) : Char :=
  if d < 10 then Char.ofNat (48 + d) else Char.ofNat (87 + d)

/-- Fractional base-36 digits of `num / 2^53`, produced most significant
first, stopping when the remainder is zero.  `fuel` bounds the recursion;
64 is more than the 27 digits any dyadic `m / 2^53` can need. -/
def fracDigits36 : Nat → Nat → List Nat
  | 0, _ => []
  | _ + 1, 0 => []
  | fuel + 1, num =>
      (num * 36) / 2 ^ 53 :: fracDigits36 fuel ((num * 36) % 2 ^ 53)

/-- `(m / 2^53).toString(36)` for `m < 2^53`. -/
def jsToString36 (m : Nat) : String :=
  if m = 0 then "0"
  else String.mk ('0' :: '.' :: (fracDigits36 64 m).map base36Char)

/-- `generateRoomCode()` as a function of the `Math.random()` draw `m / 2^53`:
`.substring(2, 8)` is drop 2 / take 6, then `.toUpperCase()` per character. -/
def generateRoomCode (m : Nat) : String :=
  String.mk ((((jsToString36 m).data.drop 2).take 6).map Char.toUpper)

/-- The `while (rooms.has(roomCode))` retry loop of `createRoom`, fed by a
finite list of random draws: the first draw whose code is not a live room
key wins.  `none` means the supplied draws were exhausted (the source would
keep drawing; a completed call corresponds to a list containing a fresh
draw). -/
def freshCode (s : ServerState) : List Nat → Option String
  | [] => none
  | m :: ms =>
      let c := generateRoomCode m
      if mapHas s.rooms c then freshCode s ms else some c

/-- `createRoom(teamCount, hostName)` (`src/backend/server.ts` lines 77-85):
generate a fresh code, construct the room, insert it.  There is no
validation of `teamCount`.  Returns the new state and the room. -/
def createRoom (s : ServerState) (cands : List Nat) (teamCount : Nat)
    (hostName : String) (now : Nat) : Option (ServerState × Room) :=
  match freshCode s cands with
  | none => none
  | some code =>
      let room := Room.create code teamCount hostName now
      some ({ s with rooms := mapSet s.rooms code room }, room)

/-- `assignPlayerToTeam(room)` (`src/backend/server.ts` lines 65-75): build
`teamCounts` of length `teamCount`, incrementing slot `team - 1` for each
player whose team lies in `[1, teamCount]`. -/
def teamCountsOf (room : Room) : List Nat :=
  room.players.foldl
    (fun acc p =>
      if 0 < p.team && p.team ≤ room.teamCount then
        acc.set (p.team - 1) (acc.getD (p.team - 1) 0 + 1)
      else acc)
    (List.replicate room.teamCount 0)

/-- `assignPlayerToTeam`: `Math.min(...teamCounts)` then
`teamCounts.indexOf(minCount) + 1`.  For `teamCount = 0` the JS code takes
`Math.min()` of no arguments (`Infinity`), `indexOf` returns `-1`, and the
result is `0`; the empty match arm mirrors that. -/
def assignPlayerToTeam (room : Room) : Nat :=
  match teamCountsOf room with
  | [] => 0
  | t :: ts =>
      let minCount := ts.foldl Nat.min t
      (teamCountsOf room).indexOf minCount + 1

/-- `join-room` handler (`src/backend/server.ts` lines 120-162).  Missing
room: only an `error` emit, state unchanged.  Known `playerName`: rebind
`socketId` of the first player with that name (reconnect).  Otherwise: make
a new player with `id = socketId`, team from `assignPlayerToTeam`, and
`isHost = isHost || players.isEmpty`, and append it.  In both non-error
paths the directory entry for the socket is set. -/
def joinRoom (s : ServerState) (socketId roomCode playerName : String)
    (isHost : Bool) : ServerState :=
  match mapGet s.rooms roomCode with
  | none => s
  | some room =>
      match room.players.find? (fun p => p.name == playerName) with
      | none =>
          let team := assignPlayerToTeam room
          let player : Player :=
            { id := socketId, name := playerName, team := team,
              isHost := isHost || room.players.isEmpty, socketId := socketId }
          let room' := { room with players := room.players ++ [player] }
          { rooms := mapSet s.rooms roomCode room',
            players := mapSet s.players socketId (player, roomCode) }
      | some player =>
          let player' := { player with socketId := socketId }
          let room' :=
            { room with
              players := updateFirst (fun p => p.name == playerName)
                (fun p => { p with socketId := socketId }) room.players }
          { rooms := mapSet s.rooms roomCode room',
            players := mapSet s.players socketId (player', roomCode) }

/-- `press-buzzer` handler (`src/backend/server.ts` lines 164-188): no-op
when the room is missing, already pressed, or the player id is unknown in
the room; otherwise lock the room, record `firstBuzzer`, and append to
`buzzerOrder`. -/
def pressBuzzer (s : ServerState) (roomCode playerId : String) (now : Nat) :
    ServerState :=
  match mapGet s.rooms roomCode with
  | none => s
  | some room =>
      if room.buzzerPressed then s
      else
        match room.players.find? (fun p => p.id == playerId) with
        | none => s
        | some player =>
            let ev : BuzzerEvent :=
              { playerId := player.id, playerName := player.name,
                team := player.team, timestamp := now }
            let room' :=
              { room with
                buzzerPressed := true
                firstBuzzer := some ev
                buzzerOrder := room.buzzerOrder ++ [ev] }
            { s with rooms := mapSet s.rooms roomCode room' }

/-- `reset-buzzer` handler (`src/backend/server.ts` lines 190-205): the guard
is `!room || !playerData?.player.isHost` — note it checks only that the
requesting socket is bound to SOME host, not that this host belongs to
`roomCode`.  Returns the new state and the error emitted to the caller,
if any. -/
def resetBuzzer (s : ServerState) (socketId roomCode : String) :
    ServerState × Option String :=
  match mapGet s.rooms roomCode, mapGet s.players socketId with
  | some room, some pd =>
      if pd.1.isHost then
        let room' :=
          { room with
            buzzerPressed := false
            firstBuzzer := none
            buzzerOrder := ([] : List BuzzerEvent) }
        ({ s with rooms := mapSet s.rooms roomCode room' }, none)
      else (s, some "Only the host can reset the buzzer")
  | some _, none => (s, some "Only the host can reset the buzzer")
  | none, _ => (s, some "Only the host can reset the buzzer")

/-- `disconnect` handler (`src/backend/server.ts` lines 226-237): deletes the
socket's directory entry only; the player record stays in the room. -/
def disconnectSock (s : ServerState) (socketId : String) : ServerState :=
  { s with players := mapDelete s.players socketId }

/-- `delete-room` handler (`src/backend/server.ts` lines 239-258): guard is
`!playerData?.player.isHost` (again no room-membership check).  When the
room exists, for each of its players the FIRST directory entry whose bound
player has the same id is deleted, then the room itself is removed. -/
def deleteRoom (s : ServerState) (socketId roomCode : String) :
    ServerState × Option String :=
  match mapGet s.players socketId with
  | none => (s, some "Only the host can delete the room")
  | some pd =>
      if pd.1.isHost then
        match mapGet s.rooms roomCode with
        | none => (s, none)
        | some room =>
            ({ rooms := mapDelete s.rooms roomCode,
               players := room.players.foldl
                 (fun dir pl => removeFirst (fun e => e.2.1.id == pl.id) dir)
                 s.players }, none)
      else (s, some "Only the host can delete the room")

/-- TTL of the cleanup sweep: 2 hours in milliseconds. -/
def roomTTL : Nat := 2 * 60 * 60 * 1000

/-- The hourly cleanup `setInterval` body (`src/backend/server.ts` lines
262-273): delete every room that is both older than the TTL and empty.
(`now - createdAt` is Nat subtraction; for `now < createdAt` JS compares a
negative number against the positive TTL and keeps the room, exactly as the
truncated difference `0` does.) -/
def cleanupRooms (s : ServerState) (now : Nat) : ServerState :=
  { s with
    rooms := s.rooms.filter
      (fun e => !(decide (roomTTL < now - e.2.createdAt) && e.2.players.isEmpty)) }

/-- One inbound command, with the oracle inputs (random draws, clock values)
it consumes. -/
inductive Cmd where
  | create (cands : List Nat) (teamCount : Nat) (hostName : String) (now : Nat)
  | join (socketId roomCode playerName : String) (isHost : Bool)
  | press (roomCode playerId : String) (now : Nat)
  | reset (socketId roomCode : String)
  | disconnect (socketId : String)
  | deleteR (socketId roomCode : String)
  | sweep (now : Nat)
deriving Repr, DecidableEq

/-- One step of the (single-threaded) event loop: handlers run to
completion, one at a time.  A `create` whose draws are exhausted leaves the
state unchanged (the real loop would just draw again). -/
def step (s : ServerState) : Cmd → ServerState
  | .create cands tc hn now => ((createRoom s cands tc hn now).map Prod.fst).getD s
  | .join sid rc pn ih => joinRoom s sid rc pn ih
  | .press rc pid now => pressBuzzer s rc pid now
  | .reset sid rc => (resetBuzzer s sid rc).1
  | .disconnect sid => disconnectSock s sid
  | .deleteR sid rc => (deleteRoom s sid rc).1
  | .sweep now => cleanupRooms s now

/-- Run a command sequence from a state. -/
def run (s : ServerState) (cs : List Cmd) : ServerState := cs.foldl step s

/-- States reachable from process start by some command sequence. -/
def Reachable (s : ServerState) : Prop := ∃ cs, s = run initState cs

/-! ## Association-list map lemmas -/

theorem mapGet_mapSet_self {α : Type} (m : List (String × α)) (k : String)
    (v : α) : mapGet (mapSet m k v) k = some v := by
  induction m with
  | nil => simp [mapSet, mapGet]
  | cons e m ih =>
      by_cases h : e.1 = k
      · simp [mapSet, mapGet, h]
      · simp [mapSet, mapGet, h, ih]

theorem mapGet_mapSet_ne {α : Type} (m : List (String × α)) (k k' : String)
    (v : α) (hne : k' ≠ k) : mapGet (mapSet m k v) k' = mapGet m k' := by
  have hne' : ¬k = k' := fun h => hne h.symm
  induction m with
  | nil => simp [mapSet, mapGet, hne']
  | cons e m ih =>
      by_cases h : e.1 = k
      · simp [mapSet, mapGet, h, hne, hne']
      · by_cases h' : e.1 = k'
        · simp [mapSet, mapGet, h, h', hne, hne']
        · simp [mapSet, mapGet, h, h', ih]

theorem mem_mapSet {α : Type} {m : List (String × α)} {k : String} {v : α}
    {p : String × α} (h : p ∈ mapSet m k v) : p ∈ m ∨ p = (k, v) := by
  induction m with
  | nil => simpa [mapSet] using h
  | cons e m ih =>
      by_cases he : e.1 = k
      · rw [mapSet, if_pos he] at h
        rcases List.mem_cons.mp h with h1 | h1
        · exact Or.inr h1
        · exact Or.inl (List.mem_cons_of_mem e h1)
      · rw [mapSet, if_neg he] at h
        rcases List.mem_cons.mp h with h1 | h1
        · exact Or.inl (h1 ▸ List.mem_cons_self e m)
        · rcases ih h1 with h2 | h2
          · exact Or.inl (List.mem_cons_of_mem e h2)
          · exact Or.inr h2

theorem mem_mapDelete {α : Type} {m : List (String × α)} {k : String}
    {p : String × α} (h : p ∈ mapDelete m k) : p ∈ m := by
  induction m with
  | nil => simp [mapDelete] at h
  | cons e m ih =>
      by_cases he : e.1 = k
      · rw [mapDelete, if_pos he] at h
        exact List.mem_cons_of_mem e h
      · rw [mapDelete, if_neg he] at h
        rcases List.mem_cons.mp h with h1 | h1
        · exact h1 ▸ List.mem_cons_self e m
        · exact List.mem_cons_of_mem e (ih h1)

theorem mem_removeFirst {α : Type} {p : α → Bool} {l : List α} {a : α}
    (h : a ∈ removeFirst p l) : a ∈ l := by
  induction l with
  | nil => simp [removeFirst] at h
  | cons b l ih =>
      unfold removeFirst at h
      by_cases hb : p b = true
      · rw [if_pos hb] at h
        exact List.mem_cons_of_mem b h
      · rw [if_neg hb] at h
        rcases List.mem_cons.mp h with h1 | h1
        · exact h1 ▸ List.mem_cons_self b l
        · exact List.mem_cons_of_mem b (ih h1)

/-! ## Team assignment (TeamAssigner) -/

/-- Number of players of `room` currently on team `u`. -/
def teamSize (room : Room) (u : Nat) : Nat :=
  room.players.countP (fun p => decide (p.team = u))

theorem getD_set_self (l : List Nat) (i x : Nat) (h : i < l.length) :
    (l.set i x).getD i 0 = x := by
  rw [List.getD_eq_getElem?_getD, List.getElem?_set_self', List.getElem?_eq_getElem h]
  rfl

theorem getD_set_ne (l : List Nat) (i j x : Nat) (h : i ≠ j) :
    (l.set i x).getD j 0 = l.getD j 0 := by
  rw [List.getD_eq_getElem?_getD, List.getElem?_set_ne h, ← List.getD_eq_getElem?_getD]

theorem foldCounts_length (tc : Nat) (ps : List Player) (acc : List Nat) :
    (ps.foldl
      (fun acc p =>
        if 0 < p.team && p.team ≤ tc then
          acc.set (p.team - 1) (acc.getD (p.team - 1) 0 + 1)
        else acc)
      acc).length = acc.length := by
  induction ps generalizing acc with
  | nil => rfl
  | cons p ps ih =>
      rw [List.foldl_cons]
      by_cases hg : (0 < p.team && p.team ≤ tc) = true
      · rw [if_pos hg, ih, List.length_set]
      · rw [if_neg hg, ih]

theorem foldCounts_getD (tc : Nat) (ps : List Player) (acc : List Nat)
    (hacc : acc.length = tc) (i : Nat) (hi : i < tc) :
    (ps.foldl
      (fun acc p =>
        if 0 < p.team && p.team ≤ tc then
          acc.set (p.team - 1) (acc.getD (p.team - 1) 0 + 1)
        else acc)
      acc).getD i 0
      = acc.getD i 0 + ps.countP (fun p => decide (p.team = i + 1)) := by
  induction ps generalizing acc with
  | nil => simp
  | cons p ps ih =>
      rw [List.foldl_cons, List.countP_cons]
      by_cases hg : (0 < p.team && p.team ≤ tc) = true
      · rw [if_pos hg]
        obtain ⟨hg1, hg2⟩ : 0 < p.team ∧ p.team ≤ tc := by
          simpa [Bool.and_eq_true, decide_eq_true_eq] using hg
        have hlen : (acc.set (p.team - 1) (acc.getD (p.team - 1) 0 + 1)).length = tc := by
          rw [List.length_set]; exact hacc
        rw [ih _ hlen]
        by_cases hpt : p.team = i + 1
        · have hidx : p.team - 1 = i := by omega
          have hi' : i < acc.length := by omega
          rw [hidx, getD_set_self acc i _ hi']
          simp [hpt]
          omega
        · have hidx : p.team - 1 ≠ i := by omega
          rw [getD_set_ne acc _ i _ hidx]
          simp [hpt]
      · rw [if_neg hg]
        rw [ih _ hacc]
        have hpt : p.team ≠ i + 1 := by
          intro hEq
          apply hg
          rw [hEq]
          simp
          omega
        simp [hpt]

theorem teamCountsOf_length (room : Room) :
    (teamCountsOf room).length = room.teamCount := by
  unfold teamCountsOf
  rw [foldCounts_length, List.length_replicate]

theorem teamCountsOf_getD (room : Room) (i : Nat) (hi : i < room.teamCount) :
    (teamCountsOf room).getD i 0 = teamSize room (i + 1) := by
  unfold teamCountsOf teamSize
  rw [foldCounts_getD room.teamCount room.players _ (List.length_replicate _ _) i hi]
  simp [List.getD_eq_getElem?_getD, List.getElem?_replicate, hi]

theorem foldl_min_le (ts : List Nat) (t : Nat) : ts.foldl Nat.min t ≤ t := by
  induction ts generalizing t with
  | nil => exact Nat.le_refl t
  | cons x ts ih =>
      rw [List.foldl_cons]
      exact Nat.le_trans (ih (Nat.min t x)) (Nat.min_le_left t x)

theorem foldl_min_le_mem (ts : List Nat) (t : Nat) (x : Nat) (hx : x ∈ ts) :
    ts.foldl Nat.min t ≤ x := by
  induction ts generalizing t with
  | nil => cases hx
  | cons y ts ih =>
      rw [List.foldl_cons]
      rcases List.mem_cons.mp hx with h1 | h1
      · subst h1
        exact Nat.le_trans (foldl_min_le ts _) (Nat.min_le_right t x)
      · exact ih _ h1

theorem foldl_min_mem (ts : List Nat) (t : Nat) :
    ts.foldl Nat.min t = t ∨ ts.foldl Nat.min t ∈ ts := by
  induction ts generalizing t with
  | nil => exact Or.inl rfl
  | cons x ts ih =>
      rw [List.foldl_cons]
      rcases ih (Nat.min t x) with h1 | h1
      · have hconv : Nat.min t x = min t x := rfl
        rcases Nat.le_total t x with h2 | h2
        · refine Or.inl ?_
          rw [h1, hconv]
          omega
        · refine Or.inr ?_
          have hmin : Nat.min t x = x := by rw [hconv]; omega
          rw [h1, hmin]
          exact List.mem_cons_self x ts
      · exact Or.inr (List.mem_cons_of_mem x h1)

theorem getD_indexOf (l : List Nat) (a : Nat) (h : a ∈ l) :
    l.getD (l.indexOf a) 0 = a := by
  induction l with
  | nil => cases h
  | cons b l ih =>
      by_cases hb : b = a
      · subst hb
        rw [List.indexOf_cons_self]
        rfl
      · rw [List.indexOf_cons_ne l hb]
        have h1 : a ∈ l := by
          rcases List.mem_cons.mp h with h2 | h2
          · exact absurd h2.symm hb
          · exact h2
        simpa using ih h1

theorem getD_ne_of_lt_indexOf (l : List Nat) (a j : Nat) (hj : j < l.indexOf a) :
    l.getD j 0 ≠ a := by
  induction l generalizing j with
  | nil => simp [List.indexOf] at hj
  | cons b l ih =>
      by_cases hb : b = a
      · subst hb
        rw [List.indexOf_cons_self] at hj
        cases hj
      · rw [List.indexOf_cons_ne l hb] at hj
        cases j with
        | zero => simpa using hb
        | succ j =>
            have hj' : j < l.indexOf a := Nat.lt_of_succ_lt_succ hj
            simpa using ih j hj'

/-- C6: for every room with `teamCount ≥ 1`, `assignPlayerToTeam` returns a
team number `t ∈ [1, teamCount]` whose current player count is ≤ that of
every team in range, and every team numbered below `t` has a strictly
larger count (lowest-index tie-break).  The function is a pure function of
the room (it is a Lean `def` with no state). -/
theorem assignPlayerToTeam_balanced (room : Room) (h : 1 ≤ room.teamCount) :
    1 ≤ assignPlayerToTeam room ∧
    assignPlayerToTeam room ≤ room.teamCount ∧
    (∀ u, 1 ≤ u → u ≤ room.teamCount →
      teamSize room (assignPlayerToTeam room) ≤ teamSize room u) ∧
    (∀ u, 1 ≤ u → u < assignPlayerToTeam room →
      teamSize room (assignPlayerToTeam room) < teamSize room u) := by
  have hlen : (teamCountsOf room).length = room.teamCount := teamCountsOf_length room
  cases hc : teamCountsOf room with
  | nil =>
      rw [hc] at hlen
      simp at hlen
      omega
  | cons t ts =>
      rw [hc] at hlen
      have hassign : assignPlayerToTeam room
          = (t :: ts).indexOf (ts.foldl Nat.min t) + 1 := by
        unfold assignPlayerToTeam
        rw [hc]
      have hmem : ts.foldl Nat.min t ∈ t :: ts := by
        rcases foldl_min_mem ts t with h1 | h1
        · rw [h1]; exact List.mem_cons_self t ts
        · exact List.mem_cons_of_mem t h1
      have hle : ∀ x ∈ t :: ts, ts.foldl Nat.min t ≤ x := by
        intro x hx
        rcases List.mem_cons.mp hx with h1 | h1
        · rw [h1]; exact foldl_min_le ts t
        · exact foldl_min_le_mem ts t x h1
      have hidx : (t :: ts).indexOf (ts.foldl Nat.min t) < (t :: ts).length :=
        List.indexOf_lt_length.mpr hmem
      have hidx_tc : (t :: ts).indexOf (ts.foldl Nat.min t) < room.teamCount := by
        rw [← hlen]; exact hidx
      have hgetidx : (t :: ts).getD ((t :: ts).indexOf (ts.foldl Nat.min t)) 0
          = ts.foldl Nat.min t := getD_indexOf _ _ hmem
      have hsize : teamSize room ((t :: ts).indexOf (ts.foldl Nat.min t) + 1)
          = ts.foldl Nat.min t := by
        rw [← teamCountsOf_getD room _ hidx_tc, hc, hgetidx]
      have hsizeu : ∀ u, 1 ≤ u → u ≤ room.teamCount →
          teamSize room u = (t :: ts).getD (u - 1) 0 := by
        intro u hu1 hu2
        have hu : u - 1 < room.teamCount := by omega
        have h2 := teamCountsOf_getD room (u - 1) hu
        rw [hc] at h2
        rw [h2]
        congr 1
        omega
      have hmemu : ∀ u, 1 ≤ u → u ≤ room.teamCount →
          (t :: ts).getD (u - 1) 0 ∈ t :: ts := by
        intro u hu1 hu2
        have hu' : u - 1 < (t :: ts).length := by omega
        rw [List.getD_eq_getElem _ _ hu']
        exact List.getElem_mem hu'
      refine ⟨by rw [hassign]; omega, by rw [hassign]; omega, ?_, ?_⟩
      · intro u hu1 hu2
        rw [hassign, hsize, hsizeu u hu1 hu2]
        exact hle _ (hmemu u hu1 hu2)
      · intro u hu1 hu3
        rw [hassign] at hu3
        have hu2 : u ≤ room.teamCount := by omega
        have hj : u - 1 < (t :: ts).indexOf (ts.foldl Nat.min t) := by omega
        have hne := getD_ne_of_lt_indexOf (t :: ts) (ts.foldl Nat.min t) (u - 1) hj
        have hge := hle _ (hmemu u hu1 hu2)
        rw [hassign, hsize, hsizeu u hu1 hu2]
        omega

/-- Witness for C6: a concrete two-team room with one player on team 1;
the assigner picks team 2 and the stated bounds hold. -/
theorem assignPlayerToTeam_balanced_witness :
    1 ≤ assignPlayerToTeam
        { code := "AB12CD", teamCount := 2, hostName := "Alice",
          players := [{ id := "s1", name := "Alice", team := 1,
                        isHost := true, socketId := "s1" }],
          buzzerPressed := false, firstBuzzer := none, buzzerOrder := [],
          createdAt := 0 } ∧
    assignPlayerToTeam
        { code := "AB12CD", teamCount := 2, hostName := "Alice",
          players := [{ id := "s1", name := "Alice", team := 1,
                        isHost := true, socketId := "s1" }],
          buzzerPressed := false, firstBuzzer := none, buzzerOrder := [],
          createdAt := 0 } ≤ 2 ∧
    (∀ u, 1 ≤ u → u ≤ 2 →
      teamSize
        { code := "AB12CD", teamCount := 2, hostName := "Alice",
          players := [{ id := "s1", name := "Alice", team := 1,
                        isHost := true, socketId := "s1" }],
          buzzerPressed := false, firstBuzzer := none, buzzerOrder := [],
          createdAt := 0 }
        (assignPlayerToTeam
          { code := "AB12CD", teamCount := 2, hostName := "Alice",
            players := [{ id := "s1", name := "Alice", team := 1,
                          isHost := true, socketId := "s1" }],
            buzzerPressed := false, firstBuzzer := none, buzzerOrder := [],
            createdAt := 0 }) ≤
      teamSize
        { code := "AB12CD", teamCount := 2, hostName := "Alice",
          players := [{ id := "s1", name := "Alice", team := 1,
                        isHost := true, socketId := "s1" }],
          buzzerPressed := false, firstBuzzer := none, buzzerOrder := [],
          createdAt := 0 } u) ∧
    (∀ u, 1 ≤ u → u < assignPlayerToTeam
        { code := "AB12CD", teamCount := 2, hostName := "Alice",
          players := [{ id := "s1", name := "Alice", team := 1,
                        isHost := true, socketId := "s1" }],
          buzzerPressed := false, firstBuzzer := none, buzzerOrder := [],
          createdAt := 0 } →
      teamSize
        { code := "AB12CD", teamCount := 2, hostName := "Alice",
          players := [{ id := "s1", name := "Alice", team := 1,
                        isHost := true, socketId := "s1" }],
          buzzerPressed := false, firstBuzzer := none, buzzerOrder := [],
          createdAt := 0 }
        (assignPlayerToTeam
          { code := "AB12CD", teamCount := 2, hostName := "Alice",
            players := [{ id := "s1", name := "Alice", team := 1,
                          isHost := true, socketId := "s1" }],
            buzzerPressed := false, firstBuzzer := none, buzzerOrder := [],
            createdAt := 0 }) <
      teamSize
        { code := "AB12CD", teamCount := 2, hostName := "Alice",
          players := [{ id := "s1", name := "Alice", team := 1,
                        isHost := true, socketId := "s1" }],
          buzzerPressed := false, firstBuzzer := none, buzzerOrder := [],
          createdAt := 0 } u) :=
  assignPlayerToTeam_balanced
    { code := "AB12CD", teamCount := 2, hostName := "Alice",
      players := [{ id := "s1", name := "Alice", team := 1,
                    isHost := true, socketId := "s1" }],
      buzzerPressed := false, firstBuzzer := none, buzzerOrder := [],
      createdAt := 0 } (by decide)

/-! ## Buzzer arbitration (BuzzerArbiter) -/

/-- A batch of `press-buzzer` commands for one room, processed in arrival
order (the event loop serializes handlers); each entry is
`(playerId, Date.now() at processing)`. -/
def pressMany (s : ServerState) (roomCode : String)
    (ps : List (String × Nat)) : ServerState :=
  ps.foldl (fun s q => pressBuzzer s roomCode q.1 q.2) s

theorem pressBuzzer_locked {s : ServerState} {c : String} {r : Room}
    (hroom : mapGet s.rooms c = some r) (hpressed : r.buzzerPressed = true)
    (pid : String) (now : Nat) : pressBuzzer s c pid now = s := by
  unfold pressBuzzer
  rw [hroom]
  simp [hpressed]

theorem pressBuzzer_unknown {s : ServerState} {c : String} {r : Room}
    (hroom : mapGet s.rooms c = some r) (hopen : r.buzzerPressed = false)
    {pid : String} (hfind : r.players.find? (fun p => p.id == pid) = none)
    (now : Nat) : pressBuzzer s c pid now = s := by
  unfold pressBuzzer
  rw [hroom]
  simp [hopen, hfind]

theorem pressBuzzer_accept {s : ServerState} {c : String} {r : Room}
    (hroom : mapGet s.rooms c = some r) (hopen : r.buzzerPressed = false)
    {pid : String} {pl : Player}
    (hfind : r.players.find? (fun p => p.id == pid) = some pl) (now : Nat) :
    pressBuzzer s c pid now =
      { s with
        rooms := mapSet s.rooms c
          { r with
            buzzerPressed := true
            firstBuzzer := some { playerId := pl.id, playerName := pl.name,
                                  team := pl.team, timestamp := now }
            buzzerOrder := r.buzzerOrder ++
              [{ playerId := pl.id, playerName := pl.name,
                 team := pl.team, timestamp := now }] } } := by
  unfold pressBuzzer
  rw [hroom]
  simp [hopen, hfind]

theorem pressMany_locked {s : ServerState} {c : String} {r : Room}
    (hroom : mapGet s.rooms c = some r) (hpressed : r.buzzerPressed = true)
    (ps : List (String × Nat)) : pressMany s c ps = s := by
  induction ps with
  | nil => rfl
  | cons q ps ih =>
      unfold pressMany
      rw [List.foldl_cons, pressBuzzer_locked hroom hpressed q.1 q.2]
      exact ih

/-- C1: in any room that is OPEN (`buzzerPressed = false`), a batch of
presses processed in arrival order accepts exactly the first press whose
player id is known in the room — locking the room, setting `firstBuzzer`,
and appending one `BuzzerEvent` — and every other press in the batch
(earlier unknown-player presses and everything after the accepted one)
leaves the whole server state unchanged, with no error, until a reset
reopens the room. -/
theorem pressMany_first_wins (s : ServerState) (c : String) (r : Room)
    (hroom : mapGet s.rooms c = some r) (hopen : r.buzzerPressed = false)
    (ps : List (String × Nat)) :
    (ps.find? (fun q => (r.players.find? (fun p => p.id == q.1)).isSome) = none →
      pressMany s c ps = s) ∧
    (∀ q, ps.find? (fun q => (r.players.find? (fun p => p.id == q.1)).isSome)
        = some q →
      ∃ pl, r.players.find? (fun p => p.id == q.1) = some pl ∧
        pressMany s c ps =
          { s with
            rooms := mapSet s.rooms c
              { r with
                buzzerPressed := true
                firstBuzzer := some { playerId := pl.id,
                                      playerName := pl.name,
                                      team := pl.team, timestamp := q.2 }
                buzzerOrder := r.buzzerOrder ++
                  [{ playerId := pl.id, playerName := pl.name,
                     team := pl.team, timestamp := q.2 }] } }) := by
  induction ps with
  | nil =>
      refine ⟨fun _ => rfl, fun q hq => ?_⟩
      simp at hq
  | cons q ps ih =>
      by_cases hv : (r.players.find? (fun p => p.id == q.1)).isSome = true
      · obtain ⟨pl, hpl⟩ := Option.isSome_iff_exists.mp hv
        have hstep := pressBuzzer_accept hroom hopen hpl q.2
        have hget' : mapGet (pressBuzzer s c q.1 q.2).rooms c
            = some { r with
                buzzerPressed := true
                firstBuzzer := some { playerId := pl.id, playerName := pl.name,
                                      team := pl.team, timestamp := q.2 }
                buzzerOrder := r.buzzerOrder ++
                  [{ playerId := pl.id, playerName := pl.name,
                     team := pl.team, timestamp := q.2 }] } := by
          rw [hstep]
          exact mapGet_mapSet_self s.rooms c _
        have hrest : pressMany (pressBuzzer s c q.1 q.2) c ps
            = pressBuzzer s c q.1 q.2 :=
          pressMany_locked hget' rfl ps
        have hall : pressMany s c (q :: ps) = pressBuzzer s c q.1 q.2 := by
          unfold pressMany
          rw [List.foldl_cons]
          exact hrest
        have hfc : List.find?
            (fun q => (r.players.find? (fun p => p.id == q.1)).isSome) (q :: ps)
            = some q := List.find?_cons_of_pos ps hv
        constructor
        · intro hnone
          rw [hfc] at hnone
          cases hnone
        · intro q' hq'
          rw [hfc] at hq'
          cases hq'
          exact ⟨pl, hpl, by rw [hall, hstep]⟩
      · have hv' : (r.players.find? (fun p => p.id == q.1)).isSome = false := by
          cases hb : (r.players.find? (fun p => p.id == q.1)).isSome
          · rfl
          · exact absurd hb hv
        have hfind : r.players.find? (fun p => p.id == q.1) = none :=
          Option.not_isSome_iff_eq_none.mp (by rw [hv']; exact Bool.false_ne_true)
        have hstep := pressBuzzer_unknown hroom hopen hfind q.2
        have hall : pressMany s c (q :: ps) = pressMany s c ps := by
          unfold pressMany
          rw [List.foldl_cons, hstep]
        have hskip : List.find?
            (fun q => (r.players.find? (fun p => p.id == q.1)).isSome) (q :: ps)
            = List.find?
              (fun q => (r.players.find? (fun p => p.id == q.1)).isSome) ps :=
          List.find?_cons_of_neg ps (by rw [hv']; exact Bool.false_ne_true)
        constructor
        · intro hnone
          rw [hskip] at hnone
          rw [hall]
          exact ih.1 hnone
        · intro q' hq'
          rw [hskip] at hq'
          obtain ⟨pl, hpl, hres⟩ := ih.2 q' hq'
          exact ⟨pl, hpl, by rw [hall, hres]⟩

/-! ## Concrete demo fixtures, used by witnesses and counterexamples -/

/-- A concrete player: host `Alice`, joined from socket `p1`. -/
def demoPlayer : Player :=
  { id := "p1", name := "Alice", team := 1, isHost := true, socketId := "p1" }

/-- A concrete open two-team room containing `demoPlayer`. -/
def demoRoom : Room :=
  { code := "AB", teamCount := 2, hostName := "Alice",
    players := [demoPlayer], buzzerPressed := false, firstBuzzer := none,
    buzzerOrder := [], createdAt := 0 }

/-- A concrete server state with one room and one bound connection. -/
def demoState : ServerState :=
  ⟨[("AB", demoRoom)], [("p1", (demoPlayer, "AB"))]⟩

/-- Witness for C1: on the demo state, a batch of three presses (first from
an unknown id, then two from Alice) accepts exactly Alice's first press. -/
theorem pressMany_first_wins_witness :
    (([("zz", 1), ("p1", 2), ("p1", 3)] : List (String × Nat)).find?
        (fun q => (demoRoom.players.find? (fun p => p.id == q.1)).isSome) = none →
      pressMany demoState "AB" [("zz", 1), ("p1", 2), ("p1", 3)] = demoState) ∧
    (∀ q, (([("zz", 1), ("p1", 2), ("p1", 3)] : List (String × Nat)).find?
        (fun q => (demoRoom.players.find? (fun p => p.id == q.1)).isSome))
        = some q →
      ∃ pl, demoRoom.players.find? (fun p => p.id == q.1) = some pl ∧
        pressMany demoState "AB" [("zz", 1), ("p1", 2), ("p1", 3)] =
          { demoState with
            rooms := mapSet demoState.rooms "AB"
              { demoRoom with
                buzzerPressed := true
                firstBuzzer := some { playerId := pl.id,
                                      playerName := pl.name,
                                      team := pl.team, timestamp := q.2 }
                buzzerOrder := demoRoom.buzzerOrder ++
                  [{ playerId := pl.id, playerName := pl.name,
                     team := pl.team, timestamp := q.2 }] } }) :=
  pressMany_first_wins demoState "AB" demoRoom (by decide) (by decide)
    [("zz", 1), ("p1", 2), ("p1", 3)]

/-! ## The per-room buzzer invariant (C2) -/

/-- The spec's room invariant: `buzzerPressed` iff a first buzzer is
recorded, iff the ledger is non-empty, and the first buzzer heads the
ledger. -/
def RoomInv (r : Room) : Prop :=
  (r.buzzerPressed = true ↔ r.firstBuzzer.isSome = true) ∧
  (r.buzzerOrder ≠ [] ↔ r.buzzerPressed = true) ∧
  (∀ e, r.firstBuzzer = some e → r.buzzerOrder.head? = some e)

/-- The invariant holds for every room in the registry. -/
def StateInv (s : ServerState) : Prop := ∀ p ∈ s.rooms, RoomInv p.2

theorem mapGet_mem {α : Type} {m : List (String × α)} {k : String} {v : α}
    (h : mapGet m k = some v) : (k, v) ∈ m := by
  induction m with
  | nil => simp [mapGet] at h
  | cons e m ih =>
      unfold mapGet at h
      by_cases he : e.1 = k
      · rw [if_pos he] at h
        have hv : e.2 = v := Option.some.inj h
        have : e = (k, v) := by
          cases e
          simp at he hv
          rw [he, hv]
        rw [← this]
        exact List.mem_cons_self e m
      · rw [if_neg he] at h
        exact List.mem_cons_of_mem e (ih h)

theorem stateInv_initState : StateInv initState := by
  intro p hp
  simp [initState] at hp

/-! ### Branch equations for the handlers -/

theorem createRoom_nofresh {s : ServerState} {cands : List Nat}
    (tc : Nat) (hn : String) (now : Nat) (hf : freshCode s cands = none) :
    createRoom s cands tc hn now = none := by
  unfold createRoom
  rw [hf]

theorem createRoom_fresh {s : ServerState} {cands : List Nat} {code : String}
    (tc : Nat) (hn : String) (now : Nat) (hf : freshCode s cands = some code) :
    createRoom s cands tc hn now
      = some ({ s with rooms := mapSet s.rooms code (Room.create code tc hn now) },
              Room.create code tc hn now) := by
  unfold createRoom
  rw [hf]

theorem joinRoom_noroom {s : ServerState} {rc : String} (sid pn : String)
    (ih : Bool) (hr : mapGet s.rooms rc = none) : joinRoom s sid rc pn ih = s := by
  unfold joinRoom
  rw [hr]

theorem joinRoom_new {s : ServerState} {rc : String} {room : Room}
    (sid pn : String) (ih : Bool) (hr : mapGet s.rooms rc = some room)
    (hfind : room.players.find? (fun p => p.name == pn) = none) :
    joinRoom s sid rc pn ih =
      { rooms := mapSet s.rooms rc
          { room with players := room.players ++
              [{ id := sid, name := pn, team := assignPlayerToTeam room,
                 isHost := ih || room.players.isEmpty, socketId := sid }] },
        players := mapSet s.players sid
          ({ id := sid, name := pn, team := assignPlayerToTeam room,
             isHost := ih || room.players.isEmpty, socketId := sid }, rc) } := by
  unfold joinRoom
  rw [hr]
  simp [hfind]

theorem joinRoom_rejoin {s : ServerState} {rc : String} {room : Room}
    {player : Player} (sid pn : String) (ih : Bool)
    (hr : mapGet s.rooms rc = some room)
    (hfind : room.players.find? (fun p => p.name == pn) = some player) :
    joinRoom s sid rc pn ih =
      { rooms := mapSet s.rooms rc
          { room with
            players := updateFirst (fun p => p.name == pn)
              (fun p => { p with socketId := sid }) room.players },
        players := mapSet s.players sid
          ({ player with socketId := sid }, rc) } := by
  unfold joinRoom
  rw [hr]
  simp [hfind]

theorem resetBuzzer_denied {s : ServerState} {sid rc : String}
    (hden : mapGet s.rooms rc = none ∨
      mapGet s.players sid = none ∨
      ∃ pd, mapGet s.players sid = some pd ∧ pd.1.isHost = false) :
    resetBuzzer s sid rc = (s, some "Only the host can reset the buzzer") := by
  unfold resetBuzzer
  rcases hden with h1 | h1 | ⟨pd, h1, h2⟩
  · rw [h1]
  · rw [h1]
    cases mapGet s.rooms rc <;> rfl
  · rw [h1]
    cases hroom : mapGet s.rooms rc with
    | none => rfl
    | some room => simp [h2]

theorem resetBuzzer_host {s : ServerState} {sid rc : String} {room : Room}
    {pd : Player × String} (hr : mapGet s.rooms rc = some room)
    (hp : mapGet s.players sid = some pd) (hh : pd.1.isHost = true) :
    resetBuzzer s sid rc =
      ({ s with
          rooms := mapSet s.rooms rc
            { room with
              buzzerPressed := false
              firstBuzzer := none
              buzzerOrder := ([] : List BuzzerEvent) } }, none) := by
  unfold resetBuzzer
  rw [hr, hp]
  simp [hh]

theorem deleteRoom_denied {s : ServerState} {sid : String} (rc : String)
    (hden : mapGet s.players sid = none ∨
      ∃ pd, mapGet s.players sid = some pd ∧ pd.1.isHost = false) :
    deleteRoom s sid rc = (s, some "Only the host can delete the room") := by
  unfold deleteRoom
  rcases hden with h1 | ⟨pd, h1, h2⟩
  · rw [h1]
  · rw [h1]
    simp [h2]

theorem deleteRoom_noroom {s : ServerState} {sid rc : String}
    {pd : Player × String} (hp : mapGet s.players sid = some pd)
    (hh : pd.1.isHost = true) (hr : mapGet s.rooms rc = none) :
    deleteRoom s sid rc = (s, none) := by
  unfold deleteRoom
  rw [hp]
  simp [hh, hr]

theorem deleteRoom_found {s : ServerState} {sid rc : String}
    {pd : Player × String} {room : Room}
    (hp : mapGet s.players sid = some pd) (hh : pd.1.isHost = true)
    (hr : mapGet s.rooms rc = some room) :
    deleteRoom s sid rc =
      ({ rooms := mapDelete s.rooms rc,
         players := room.players.foldl
           (fun dir pl => removeFirst (fun e => e.2.1.id == pl.id) dir)
           s.players }, none) := by
  unfold deleteRoom
  rw [hp]
  simp [hh, hr]

/-! ### Preservation of the invariant by every command -/

theorem roomInv_of_same_buzzer {r r' : Room}
    (hp : r'.buzzerPressed = r.buzzerPressed)
    (hf : r'.firstBuzzer = r.firstBuzzer)
    (ho : r'.buzzerOrder = r.buzzerOrder) (h : RoomInv r) : RoomInv r' := by
  obtain ⟨h1, h2, h3⟩ := h
  exact ⟨by rw [hp, hf]; exact h1, by rw [ho, hp]; exact h2,
    fun e he => by rw [ho]; exact h3 e (hf ▸ he)⟩

theorem stateInv_create (s : ServerState) (hs : StateInv s)
    (cands : List Nat) (tc : Nat) (hn : String) (now : Nat) :
    StateInv (step s (.create cands tc hn now)) := by
  simp only [step]
  cases hf : freshCode s cands with
  | none =>
      rw [createRoom_nofresh tc hn now hf]
      exact hs
  | some code =>
      rw [createRoom_fresh tc hn now hf]
      intro p hp
      simp only [Option.map_some', Option.getD_some] at hp
      rcases mem_mapSet hp with h1 | h1
      · exact hs p h1
      · rw [h1]
        refine ⟨by simp [Room.create], by simp [Room.create], ?_⟩
        intro e he
        simp [Room.create] at he

theorem stateInv_join (s : ServerState) (hs : StateInv s)
    (sid rc pn : String) (ih : Bool) :
    StateInv (step s (.join sid rc pn ih)) := by
  simp only [step]
  cases hr : mapGet s.rooms rc with
  | none =>
      rw [joinRoom_noroom sid pn ih hr]
      exact hs
  | some room =>
      have hroomInv : RoomInv room := hs (rc, room) (mapGet_mem hr)
      cases hfind : room.players.find? (fun p => p.name == pn) with
      | none =>
          rw [joinRoom_new sid pn ih hr hfind]
          intro p hp
          rcases mem_mapSet hp with h1 | h1
          · exact hs p h1
          · rw [h1]
            exact roomInv_of_same_buzzer rfl rfl rfl hroomInv
      | some player =>
          rw [joinRoom_rejoin sid pn ih hr hfind]
          intro p hp
          rcases mem_mapSet hp with h1 | h1
          · exact hs p h1
          · rw [h1]
            exact roomInv_of_same_buzzer rfl rfl rfl hroomInv

theorem stateInv_press (s : ServerState) (hs : StateInv s)
    (rc pid : String) (now : Nat) :
    StateInv (step s (.press rc pid now)) := by
  simp only [step]
  cases hr : mapGet s.rooms rc with
  | none =>
      unfold pressBuzzer
      rw [hr]
      exact hs
  | some room =>
      have hroomInv : RoomInv room := hs (rc, room) (mapGet_mem hr)
      cases hb : room.buzzerPressed with
      | true =>
          rw [pressBuzzer_locked hr hb pid now]
          exact hs
      | false =>
          cases hfind : room.players.find? (fun p => p.id == pid) with
          | none =>
              rw [pressBuzzer_unknown hr hb hfind now]
              exact hs
          | some player =>
              rw [pressBuzzer_accept hr hb hfind now]
              intro p hp
              rcases mem_mapSet hp with h1 | h1
              · exact hs p h1
              · rw [h1]
                have horder : room.buzzerOrder = [] := by
                  obtain ⟨_, h2, _⟩ := hroomInv
                  by_cases ho : room.buzzerOrder = []
                  · exact ho
                  · have := h2.mp ho
                    rw [hb] at this
                    cases this
                refine ⟨by simp, by simp, ?_⟩
                intro e he
                simp only at he
                have he' : e = { playerId := player.id, playerName := player.name,
                                 team := player.team, timestamp := now } :=
                  (Option.some.inj he).symm
                rw [he', horder]
                rfl

theorem stateInv_reset (s : ServerState) (hs : StateInv s)
    (sid rc : String) : StateInv (step s (.reset sid rc)) := by
  simp only [step]
  cases hr : mapGet s.rooms rc with
  | none =>
      rw [resetBuzzer_denied (Or.inl hr)]
      exact hs
  | some room =>
      cases hp : mapGet s.players sid with
      | none =>
          rw [resetBuzzer_denied (Or.inr (Or.inl hp))]
          exact hs
      | some pd =>
          cases hh : pd.1.isHost with
          | false =>
              rw [resetBuzzer_denied (Or.inr (Or.inr ⟨pd, hp, hh⟩))]
              exact hs
          | true =>
              rw [resetBuzzer_host hr hp hh]
              intro p hp'
              rcases mem_mapSet hp' with h1 | h1
              · exact hs p h1
              · rw [h1]
                refine ⟨by simp, by simp, ?_⟩
                intro e he
                simp at he

theorem stateInv_disconnect (s : ServerState) (hs : StateInv s)
    (sid : String) : StateInv (step s (.disconnect sid)) := by
  simp only [step]
  unfold disconnectSock
  exact hs

theorem stateInv_deleteR (s : ServerState) (hs : StateInv s)
    (sid rc : String) : StateInv (step s (.deleteR sid rc)) := by
  simp only [step]
  cases hp : mapGet s.players sid with
  | none =>
      rw [deleteRoom_denied rc (Or.inl hp)]
      exact hs
  | some pd =>
      cases hh : pd.1.isHost with
      | false =>
          rw [deleteRoom_denied rc (Or.inr ⟨pd, hp, hh⟩)]
          exact hs
      | true =>
          cases hr : mapGet s.rooms rc with
          | none =>
              rw [deleteRoom_noroom hp hh hr]
              exact hs
          | some room =>
              rw [deleteRoom_found hp hh hr]
              intro p hp'
              exact hs p (mem_mapDelete hp')

theorem stateInv_sweep (s : ServerState) (hs : StateInv s) (now : Nat) :
    StateInv (step s (.sweep now)) := by
  simp only [step]
  unfold cleanupRooms
  intro p hp
  exact hs p (List.mem_of_mem_filter hp)

theorem stateInv_step (s : ServerState) (hs : StateInv s) (cmd : Cmd) :
    StateInv (step s cmd) := by
  cases cmd with
  | create cands tc hn now => exact stateInv_create s hs cands tc hn now
  | join sid rc pn ih => exact stateInv_join s hs sid rc pn ih
  | press rc pid now => exact stateInv_press s hs rc pid now
  | reset sid rc => exact stateInv_reset s hs sid rc
  | disconnect sid => exact stateInv_disconnect s hs sid
  | deleteR sid rc => exact stateInv_deleteR s hs sid rc
  | sweep now => exact stateInv_sweep s hs now

theorem stateInv_run (cs : List Cmd) (s : ServerState) (hs : StateInv s) :
    StateInv (run s cs) := by
  induction cs generalizing s with
  | nil => exact hs
  | cons cmd cs ihc =>
      unfold run
      rw [List.foldl_cons]
      exact ihc (step s cmd) (stateInv_step s hs cmd)

/-- C2: in every state reachable by any command sequence (create, join,
press, reset, disconnect, delete, plus the cleanup sweep), every room in
the registry satisfies: `buzzerPressed` iff `firstBuzzer` is present,
`buzzerOrder` is non-empty iff `buzzerPressed`, and a present `firstBuzzer`
heads `buzzerOrder`. -/
theorem reachable_buzzer_invariant (s : ServerState) (h : Reachable s) :
    ∀ c r, (c, r) ∈ s.rooms →
      (r.buzzerPressed = true ↔ r.firstBuzzer.isSome = true) ∧
      (r.buzzerOrder ≠ [] ↔ r.buzzerPressed = true) ∧
      (∀ e, r.firstBuzzer = some e → r.buzzerOrder.head? = some e) := by
  obtain ⟨cs, hcs⟩ := h
  intro c r hmem
  have hinv : StateInv s := hcs ▸ stateInv_run cs initState stateInv_initState
  exact hinv (c, r) hmem

/-- Witness for C2: the invariant, instantiated at the concrete locked room
produced by create / join / press from the empty state. -/
theorem reachable_buzzer_invariant_witness :
    ((true : Bool) = true ↔
      (some { playerId := "p1", playerName := "Alice", team := 1,
              timestamp := 5 } : Option BuzzerEvent).isSome = true) ∧
    (([{ playerId := "p1", playerName := "Alice", team := 1, timestamp := 5 }]
        : List BuzzerEvent) ≠ [] ↔ (true : Bool) = true) ∧
    (∀ e, (some { playerId := "p1", playerName := "Alice", team := 1,
                  timestamp := 5 } : Option BuzzerEvent) = some e →
      ([{ playerId := "p1", playerName := "Alice", team := 1, timestamp := 5 }]
        : List BuzzerEvent).head? = some e) :=
  reachable_buzzer_invariant
    (run initState
      [.create [2 ^ 52] 2 "Alice" 0, .join "p1" "I" "Alice" true,
       .press "I" "p1" 5])
    ⟨[.create [2 ^ 52] 2 "Alice" 0, .join "p1" "I" "Alice" true,
      .press "I" "p1" 5], rfl⟩
    "I"
    { code := "I", teamCount := 2, hostName := "Alice",
      players := [{ id := "p1", name := "Alice", team := 1, isHost := true,
                    socketId := "p1" }],
      buzzerPressed := true,
      firstBuzzer := some { playerId := "p1", playerName := "Alice",
                            team := 1, timestamp := 5 },
      buzzerOrder := [{ playerId := "p1", playerName := "Alice", team := 1,
                        timestamp := 5 }],
      createdAt := 0 }
    (by decide)

/-! ## Room reaping (C10) -/

theorem isEmpty_false_iff {α : Type} (l : List α) :
    l.isEmpty = false ↔ l ≠ [] := by
  cases l <;> simp

/-- C10: the cleanup sweep keeps a room exactly when it still has players
or its age is within the 2-hour TTL: a room with ≥ 1 player is never
deleted, and an empty room is deleted exactly when its age strictly
exceeds the TTL. -/
theorem cleanupRooms_spec (s : ServerState) (now : Nat) :
    ∀ c r, ((c, r) ∈ (cleanupRooms s now).rooms ↔
      (c, r) ∈ s.rooms ∧ (r.players ≠ [] ∨ now - r.createdAt ≤ roomTTL)) := by
  intro c r
  unfold cleanupRooms
  simp only [List.mem_filter, Bool.not_eq_true', Bool.and_eq_false_iff,
    decide_eq_false_iff_not, not_lt, isEmpty_false_iff]
  constructor
  · rintro ⟨hmem, h⟩
    rcases h with h | h
    · exact ⟨hmem, Or.inr h⟩
    · exact ⟨hmem, Or.inl h⟩
  · rintro ⟨hmem, h⟩
    rcases h with h | h
    · exact ⟨hmem, Or.inr h⟩
    · exact ⟨hmem, Or.inl h⟩

/-! ## Cross-room host authorization (C3) -/

/-- A script building two rooms: Alice creates and joins room `I` (host),
Bob and Carol populate room `R`, and Carol buzzes in `R`. -/
def crossRoomScript : List Cmd :=
  [.create [2 ^ 52] 2 "Alice" 0,
   .create [3 * 2 ^ 51] 2 "Bob" 0,
   .join "sA" "I" "Alice" true,
   .join "sB" "R" "Bob" true,
   .join "sC" "R" "Carol" false,
   .press "R" "sC" 100]

/-- The state reached by `crossRoomScript` from the empty state. -/
def crossRoomState : ServerState := run initState crossRoomScript

/-- C3: the host check of `reset-buzzer` / `delete-room` only asks whether
the requesting connection is bound to SOME host, not a host of the target
room: Alice, host of room `I` and not a member of room `R`, successfully
resets `R`'s locked buzzer (no error emitted) and then deletes room `R`. -/
theorem cross_room_host_authorization :
    mapGet crossRoomState.players "sA"
      = some ({ id := "sA", name := "Alice", team := 1, isHost := true,
                socketId := "sA" }, "I") ∧
    (mapGet crossRoomState.rooms "R").map
      (fun r => r.players.map (fun p => p.name)) = some ["Bob", "Carol"] ∧
    (mapGet crossRoomState.rooms "R").map (fun r => r.buzzerPressed)
      = some true ∧
    (resetBuzzer crossRoomState "sA" "R").2 = none ∧
    (mapGet (resetBuzzer crossRoomState "sA" "R").1.rooms "R").map
      (fun r => r.buzzerPressed) = some false ∧
    (deleteRoom (resetBuzzer crossRoomState "sA" "R").1 "sA" "R").2 = none ∧
    mapGet (deleteRoom (resetBuzzer crossRoomState "sA" "R").1 "sA" "R").1.rooms
      "R" = none := by
  decide

/-! ## Reset authorization and idempotence (C7) -/

theorem mapSet_mapSet_self {α : Type} (m : List (String × α)) (k : String)
    (v v' : α) : mapSet (mapSet m k v) k v' = mapSet m k v' := by
  induction m with
  | nil => simp [mapSet]
  | cons e m ih =>
      by_cases h : e.1 = k
      · simp [mapSet, h]
      · simp [mapSet, h, ih]

/-- C7: when the requesting connection is bound to a non-host player,
`reset-buzzer` emits the Unauthorized error and leaves the whole state
(hence the room's `buzzerPressed`, `firstBuzzer`, `buzzerOrder`) unchanged;
when bound to a host it clears all three fields, emits no error, and the
successful reset is idempotent. -/
theorem resetBuzzer_auth (s : ServerState) (sid rc : String) (room : Room)
    (pd : Player × String) (hr : mapGet s.rooms rc = some room)
    (hp : mapGet s.players sid = some pd) :
    (pd.1.isHost = false →
      resetBuzzer s sid rc = (s, some "Only the host can reset the buzzer")) ∧
    (pd.1.isHost = true →
      resetBuzzer s sid rc =
        ({ s with
            rooms := mapSet s.rooms rc
              { room with
                buzzerPressed := false
                firstBuzzer := none
                buzzerOrder := ([] : List BuzzerEvent) } }, none) ∧
      resetBuzzer (resetBuzzer s sid rc).1 sid rc
        = ((resetBuzzer s sid rc).1, none)) := by
  refine ⟨fun hh => resetBuzzer_denied (Or.inr (Or.inr ⟨pd, hp, hh⟩)),
    fun hh => ?_⟩
  have h1 := resetBuzzer_host hr hp hh
  refine ⟨h1, ?_⟩
  have hr1 : mapGet ({ s with
      rooms := mapSet s.rooms rc
        { room with
          buzzerPressed := false
          firstBuzzer := none
          buzzerOrder := ([] : List BuzzerEvent) } } : ServerState).rooms rc
      = some { room with
          buzzerPressed := false
          firstBuzzer := none
          buzzerOrder := ([] : List BuzzerEvent) } :=
    mapGet_mapSet_self s.rooms rc _
  have h2 := resetBuzzer_host hr1 hp hh
  simp only [h1]
  rw [h2]
  simp [mapSet_mapSet_self]

/-- Witness for C7: on the demo state, the bound player `p1` is a host;
resetting is successful and idempotent (the non-host branch is vacuous
here). -/
theorem resetBuzzer_auth_witness :
    (demoPlayer.isHost = false →
      resetBuzzer demoState "p1" "AB"
        = (demoState, some "Only the host can reset the buzzer")) ∧
    (demoPlayer.isHost = true →
      resetBuzzer demoState "p1" "AB" =
        ({ demoState with
            rooms := mapSet demoState.rooms "AB"
              { demoRoom with
                buzzerPressed := false
                firstBuzzer := none
                buzzerOrder := ([] : List BuzzerEvent) } }, none) ∧
      resetBuzzer (resetBuzzer demoState "p1" "AB").1 "p1" "AB"
        = ((resetBuzzer demoState "p1" "AB").1, none)) :=
  resetBuzzer_auth demoState "p1" "AB" demoRoom (demoPlayer, "AB")
    (by decide) (by decide)

/-! ## Reconnect frame conditions (C8, C9) -/

/-- The connection-independent part of a player record. -/
def playerIdentity (p : Player) : String × String × Nat × Bool :=
  (p.id, p.name, p.team, p.isHost)

theorem length_updateFirst {α : Type} (p : α → Bool) (f : α → α)
    (l : List α) : (updateFirst p f l).length = l.length := by
  induction l with
  | nil => rfl
  | cons a as ih =>
      unfold updateFirst
      by_cases h : p a = true
      · rw [if_pos h]
        rfl
      · rw [if_neg h]
        simp [ih]

theorem map_updateFirst {α β : Type} (p : α → Bool) (f : α → α) (g : α → β)
    (hg : ∀ a, g (f a) = g a) (l : List α) :
    (updateFirst p f l).map g = l.map g := by
  induction l with
  | nil => rfl
  | cons a as ih =>
      unfold updateFirst
      by_cases h : p a = true
      · rw [if_pos h]
        simp [hg a]
      · rw [if_neg h]
        simp [ih]

/-- C8: joining with a `playerName` already present in the room (the
reconnect path) appends no player, preserves every player's `id`, `name`,
`team`, `isHost` (in particular the matched player's), and updates only the
matched player's `socketId` and the socket's directory binding. -/
theorem joinRoom_reconnect_frame (s : ServerState) (sid rc pn : String)
    (ihost : Bool) (room : Room) (player : Player)
    (hr : mapGet s.rooms rc = some room)
    (hfind : room.players.find? (fun p => p.name == pn) = some player) :
    joinRoom s sid rc pn ihost =
      { rooms := mapSet s.rooms rc
          { room with
            players := updateFirst (fun p => p.name == pn)
              (fun p => { p with socketId := sid }) room.players },
        players := mapSet s.players sid
          ({ player with socketId := sid }, rc) } ∧
    (updateFirst (fun p => p.name == pn)
        (fun p => { p with socketId := sid }) room.players).length
      = room.players.length ∧
    (updateFirst (fun p => p.name == pn)
        (fun p => { p with socketId := sid }) room.players).map playerIdentity
      = room.players.map playerIdentity ∧
    playerIdentity { player with socketId := sid } = playerIdentity player ∧
    ({ player with socketId := sid } : Player).socketId = sid :=
  ⟨joinRoom_rejoin sid pn ihost hr hfind,
   length_updateFirst _ _ _,
   map_updateFirst (fun p => p.name == pn)
     (fun p => { p with socketId := sid }) playerIdentity (fun _ => rfl)
     room.players,
   rfl, rfl⟩

/-- Witness for C8: Alice rejoins the demo room from a new socket `p2`. -/
theorem joinRoom_reconnect_frame_witness :
    joinRoom demoState "p2" "AB" "Alice" false =
      { rooms := mapSet demoState.rooms "AB"
          { demoRoom with
            players := updateFirst (fun p => p.name == "Alice")
              (fun p => { p with socketId := "p2" }) demoRoom.players },
        players := mapSet demoState.players "p2"
          ({ demoPlayer with socketId := "p2" }, "AB") } ∧
    (updateFirst (fun p => p.name == "Alice")
        (fun p => { p with socketId := "p2" }) demoRoom.players).length
      = demoRoom.players.length ∧
    (updateFirst (fun p => p.name == "Alice")
        (fun p => { p with socketId := "p2" }) demoRoom.players).map
        playerIdentity
      = demoRoom.players.map playerIdentity ∧
    playerIdentity { demoPlayer with socketId := "p2" }
      = playerIdentity demoPlayer ∧
    ({ demoPlayer with socketId := "p2" } : Player).socketId = "p2" :=
  joinRoom_reconnect_frame demoState "p2" "AB" "Alice" false demoRoom
    demoPlayer (by decide) (by decide)

/-- C9 counterexample: a player created by a first `join-room` has
`id = socketId` (both are the creating connection's id), so the claim that
a player's `id` is distinct from its current `socketId` fails on every
fresh join: after Alice creates and joins room `I` from socket `p1`, the
room's only player has `p.id == p.socketId` evaluating to `true`. -/
theorem playerId_equals_socketId_counterexample :
    (mapGet (run initState
        [.create [2 ^ 52] 2 "Alice" 0, .join "p1" "I" "Alice" true]).rooms
        "I").map (fun r => r.players.map (fun p => p.id == p.socketId))
      = some [true] := by
  decide

/-- C9 amended: `id` is stable — `join-room`, the only command that writes
player records, never rewrites an existing player's `id` (a reconnect
rebinds only `socketId`), and a newly created player starts with
`id = socketId = ` the creating connection's id (so the two coincide at
creation and diverge only after a reconnect from a different connection). -/
theorem playerId_stable (s : ServerState) (sid rc pn : String)
    (ihost : Bool) (room : Room) (hr : mapGet s.rooms rc = some room) :
    (∀ player, room.players.find? (fun p => p.name == pn) = some player →
      mapGet (joinRoom s sid rc pn ihost).rooms rc = some
        { room with
          players := updateFirst (fun p => p.name == pn)
            (fun p => { p with socketId := sid }) room.players } ∧
      (updateFirst (fun p => p.name == pn)
          (fun p => { p with socketId := sid }) room.players).map
        (fun p => p.id) = room.players.map (fun p => p.id)) ∧
    (room.players.find? (fun p => p.name == pn) = none →
      mapGet (joinRoom s sid rc pn ihost).rooms rc = some
        { room with
          players := room.players ++
            [{ id := sid, name := pn, team := assignPlayerToTeam room,
               isHost := ihost || room.players.isEmpty, socketId := sid }] } ∧
      ({ id := sid, name := pn, team := assignPlayerToTeam room,
         isHost := ihost || room.players.isEmpty,
         socketId := sid } : Player).id = sid ∧
      ({ id := sid, name := pn, team := assignPlayerToTeam room,
         isHost := ihost || room.players.isEmpty,
         socketId := sid } : Player).socketId = sid) := by
  constructor
  · intro player hfind
    rw [joinRoom_rejoin sid pn ihost hr hfind]
    exact ⟨mapGet_mapSet_self _ _ _,
      map_updateFirst (fun p => p.name == pn)
        (fun p => { p with socketId := sid }) (fun p => p.id) (fun a => rfl)
        room.players⟩
  · intro hfind
    rw [joinRoom_new sid pn ihost hr hfind]
    exact ⟨mapGet_mapSet_self _ _ _, rfl, rfl⟩

/-- Witness for C9: instantiated on the demo state (where Alice exists, the
reconnect branch applies; the new-player branch is vacuous). -/
theorem playerId_stable_witness :
    (∀ player, demoRoom.players.find? (fun p => p.name == "Alice")
        = some player →
      mapGet (joinRoom demoState "p2" "AB" "Alice" false).rooms "AB" = some
        { demoRoom with
          players := updateFirst (fun p => p.name == "Alice")
            (fun p => { p with socketId := "p2" }) demoRoom.players } ∧
      (updateFirst (fun p => p.name == "Alice")
          (fun p => { p with socketId := "p2" }) demoRoom.players).map
        (fun p => p.id) = demoRoom.players.map (fun p => p.id)) ∧
    (demoRoom.players.find? (fun p => p.name == "Alice") = none →
      mapGet (joinRoom demoState "p2" "AB" "Alice" false).rooms "AB" = some
        { demoRoom with
          players := demoRoom.players ++
            [{ id := "p2", name := "Alice",
               team := assignPlayerToTeam demoRoom,
               isHost := false || demoRoom.players.isEmpty,
               socketId := "p2" }] } ∧
      ({ id := "p2", name := "Alice", team := assignPlayerToTeam demoRoom,
         isHost := false || demoRoom.players.isEmpty,
         socketId := "p2" } : Player).id = "p2" ∧
      ({ id := "p2", name := "Alice", team := assignPlayerToTeam demoRoom,
         isHost := false || demoRoom.players.isEmpty,
         socketId := "p2" } : Player).socketId = "p2") :=
  playerId_stable demoState "p2" "AB" "Alice" false demoRoom (by decide)

/-! ## Room creation: no config validation (C4) -/

/-- C4 counterexample: `createRoom` with `teamCount = 0` (i.e. `< 1`) does
not fail — it succeeds and inserts the room into the registry, so the
claimed `InvalidConfig` rejection does not exist in the code. -/
theorem createRoom_zero_teams_counterexample :
    createRoom initState [2 ^ 52] 0 "Alice" 0
      = some ({ rooms := [("I", Room.create "I" 0 "Alice" 0)], players := [] },
              Room.create "I" 0 "Alice" 0) ∧
    mapGet ({ rooms := [("I", Room.create "I" 0 "Alice" 0)], players := [] }
        : ServerState).rooms "I" = some (Room.create "I" 0 "Alice" 0) := by
  decide

/-- C4 amended: `createRoom` performs no `teamCount` validation at all —
for every `teamCount`, including values `< 1`, a call that draws a fresh
code succeeds and inserts a room carrying exactly that `teamCount`. -/
theorem createRoom_no_team_validation (s : ServerState) (cands : List Nat)
    (tc : Nat) (hn : String) (now : Nat) (code : String)
    (hf : freshCode s cands = some code) :
    createRoom s cands tc hn now
      = some ({ s with
                rooms := mapSet s.rooms code (Room.create code tc hn now) },
              Room.create code tc hn now) ∧
    mapGet (mapSet s.rooms code (Room.create code tc hn now)) code
      = some (Room.create code tc hn now) ∧
    (Room.create code tc hn now).teamCount = tc :=
  ⟨createRoom_fresh tc hn now hf, mapGet_mapSet_self _ _ _, rfl⟩

/-- Witness for C4 amended: `teamCount = 0` on the empty state. -/
theorem createRoom_no_team_validation_witness :
    createRoom initState [2 ^ 52] 0 "Alice" 0
      = some ({ initState with
                rooms := mapSet initState.rooms "I"
                  (Room.create "I" 0 "Alice" 0) },
              Room.create "I" 0 "Alice" 0) ∧
    mapGet (mapSet initState.rooms "I" (Room.create "I" 0 "Alice" 0)) "I"
      = some (Room.create "I" 0 "Alice" 0) ∧
    (Room.create "I" 0 "Alice" 0).teamCount = 0 :=
  createRoom_no_team_validation initState [2 ^ 52] 0 "Alice" 0 "I" (by decide)

/-! ## Room-code format (C5) -/

/-- The spec's code alphabet: `[0-9A-Z]`. -/
def isUpperBase36 (ch : Char) : Bool :=
  (decide ('0' ≤ ch) && decide (ch ≤ '9')) ||
  (decide ('A' ≤ ch) && decide (ch ≤ 'Z'))

/-- C5 counterexample: the `Math.random()` draw `0.5` (`= 2^52 / 2^53`) has
base-36 expansion `"0.i"`, so `substring(2, 8)` yields the one-character
code `"I"`: a successful `createRoom` can return a code that is not exactly
6 characters long. -/
theorem roomCode_length_counterexample :
    (createRoom initState [2 ^ 52] 2 "Alice" 0).map (fun x => x.2.code)
      = some "I" ∧ ("I" : String).length ≠ 6 := by
  decide

theorem mapGet_eq_none_of_not_has {α : Type} {m : List (String × α)}
    {k : String} (h : mapHas m k = false) : mapGet m k = none := by
  induction m with
  | nil => rfl
  | cons e m ih =>
      unfold mapHas at h
      rw [Bool.or_eq_false_iff] at h
      obtain ⟨h1, h2⟩ := h
      have h1' : ¬e.1 = k := by simpa using h1
      unfold mapGet
      rw [if_neg h1']
      exact ih h2

theorem freshCode_spec (s : ServerState) (cands : List Nat) (code : String)
    (h : freshCode s cands = some code) :
    (∃ m ∈ cands, code = generateRoomCode m) ∧
    mapGet s.rooms code = none := by
  induction cands with
  | nil => simp [freshCode] at h
  | cons m ms ih =>
      simp only [freshCode] at h
      by_cases hh : mapHas s.rooms (generateRoomCode m) = true
      · rw [if_pos hh] at h
        obtain ⟨⟨m', hm', hcode⟩, hnone⟩ := ih h
        exact ⟨⟨m', List.mem_cons_of_mem m hm', hcode⟩, hnone⟩
      · have hh' : mapHas s.rooms (generateRoomCode m) = false := by
          cases hb : mapHas s.rooms (generateRoomCode m)
          · rfl
          · exact absurd hb hh
        rw [if_neg hh] at h
        have hcode : code = generateRoomCode m := (Option.some.inj h).symm
        refine ⟨⟨m, List.mem_cons_self m ms, hcode⟩, ?_⟩
        rw [hcode]
        exact mapGet_eq_none_of_not_has hh'

theorem fracDigits36_lt (fuel : Nat) : ∀ num, num < 2 ^ 53 →
    ∀ d ∈ fracDigits36 fuel num, d < 36 := by
  induction fuel with
  | zero =>
      intro num _ d hd
      simp [fracDigits36] at hd
  | succ fuel ih =>
      intro num hnum d hd
      cases num with
      | zero => simp [fracDigits36] at hd
      | succ n =>
          have hd' : d ∈ ((n + 1) * 36) / 2 ^ 53 ::
              fracDigits36 fuel (((n + 1) * 36) % 2 ^ 53) := hd
          rcases List.mem_cons.mp hd' with h1 | h1
          · subst h1
            omega
          · exact ih ((n + 1) * 36 % 2 ^ 53) (Nat.mod_lt _ (by norm_num)) d h1

theorem base36Char_toUpper_ok (d : Nat) (h : d < 36) :
    isUpperBase36 ((base36Char d).toUpper) = true := by
  have hall : ∀ d', d' < 36 → isUpperBase36 ((base36Char d').toUpper) = true := by
    decide
  exact hall d h

theorem generateRoomCode_spec (m : Nat) (hm : m < 2 ^ 53) :
    (generateRoomCode m).length ≤ 6 ∧
    ∀ ch ∈ (generateRoomCode m).data, isUpperBase36 ch = true := by
  by_cases h0 : m = 0
  · subst h0
    exact ⟨by decide, by decide⟩
  · constructor
    · have hlen : (generateRoomCode m).length
          = ((((jsToString36 m).data.drop 2).take 6).map Char.toUpper).length :=
        rfl
      rw [hlen, List.length_map, List.length_take]
      exact Nat.min_le_left 6 _
    · intro ch hch
      have hch' : ch ∈ (((jsToString36 m).data.drop 2).take 6).map Char.toUpper := hch
      rcases List.mem_map.mp hch' with ⟨c, hc, hcu⟩
      have hc2 : c ∈ ((jsToString36 m).data.drop 2) := List.mem_of_mem_take hc
      have hdata : (jsToString36 m).data.drop 2
          = (fracDigits36 64 m).map base36Char := by
        unfold jsToString36
        rw [if_neg h0]
        rfl
      rw [hdata] at hc2
      rcases List.mem_map.mp hc2 with ⟨d, hd, hdc⟩
      have hdlt : d < 36 := fracDigits36_lt 64 m hm d hd
      rw [← hcu, ← hdc]
      exact base36Char_toUpper_ok d hdlt

/-- C5 amended: every code produced by a successful `createRoom` (with the
random draws ranging over genuine `Math.random()` values `m / 2^53`) is AT
MOST 6 characters long — draws with short base-36 expansions give shorter
codes — is drawn from the alphabet `[0-9A-Z]`, and is distinct from the
code of every room live at creation time. -/
theorem createRoom_code_spec (s : ServerState) (cands : List Nat) (tc : Nat)
    (hn : String) (now : Nat) (s' : ServerState) (r : Room)
    (hm : ∀ m ∈ cands, m < 2 ^ 53)
    (hc : createRoom s cands tc hn now = some (s', r)) :
    r.code.length ≤ 6 ∧
    (∀ ch ∈ r.code.data, isUpperBase36 ch = true) ∧
    mapGet s.rooms r.code = none := by
  unfold createRoom at hc
  cases hf : freshCode s cands with
  | none =>
      rw [hf] at hc
      cases hc
  | some code =>
      rw [hf] at hc
      have hpair := Option.some.inj hc
      have hrr : Room.create code tc hn now = r := congrArg Prod.snd hpair
      have hrcode : r.code = code := by rw [← hrr]; rfl
      obtain ⟨⟨m, hm', hcode⟩, hnone⟩ := freshCode_spec s cands code hf
      have hspec := generateRoomCode_spec m (hm m hm')
      rw [hrcode, hcode]
      exact ⟨hspec.1, hspec.2, by rw [← hcode]; exact hnone⟩

/-- Witness for C5 amended: the draw `0.5` on the empty registry gives the
one-character code `"I"`, within the stated bounds. -/
theorem createRoom_code_spec_witness :
    (Room.create "I" 2 "Alice" 0).code.length ≤ 6 ∧
    (∀ ch ∈ (Room.create "I" 2 "Alice" 0).code.data,
      isUpperBase36 ch = true) ∧
    mapGet initState.rooms (Room.create "I" 2 "Alice" 0).code = none :=
  createRoom_code_spec initState [2 ^ 52] 2 "Alice" 0
    { rooms := [("I", Room.create "I" 2 "Alice" 0)], players := [] }
    (Room.create "I" 2 "Alice" 0) (by decide) (by decide)
